import Mathlib

/-!
Verification development for the `ssm-tool` repository.

The definitions below are a shallow embedding of the Python sources:

* `SsmTool.rrPass`, `SsmTool.rrLoop`, `SsmTool.chunk_jobs` embed
  `SsmParameterTool.chunk_jobs` (lambdas/ssm_parameter_tool/ssm_parameter_tool.py,
  lines 91-124): jobs are distributed round-robin over
  `min(len(jobs), max_batches)` batches by repeatedly popping the head of the
  job list and appending it to the next batch in order.
* The S3 blob store is modelled as the list of keys present in the bucket
  (`SsmTool.S3`); object bodies are never inspected by any of the verified
  properties, so they are elided.
* `SsmUtilities` tag and delete operations are embedded further below.

Python's `while jobs:` loop in `chunk_jobs` never terminates when the batch
dictionary is empty while jobs remain (i.e. `max_batches = 0` and
`jobs ≠ []`): the inner `for batch in job_groups:` iterates over nothing, so
nothing is ever popped.  That divergent case is modelled by `rrLoop`
returning `none`.
-/

namespace SsmTool

variable {α : Type}

/-- One iteration of the `while jobs:` loop body of `chunk_jobs`: the
`for batch in job_groups:` loop appends `jobs.pop(0)` to each batch in
order, stopping early (`break`) when the job list empties.  Returns the
updated batches together with the remaining jobs. -/
def rrPass : List (List α) → List α → List (List α) × List α
  | [], jobs => ([], jobs)
  | b :: bs, [] => (b :: bs, [])
  | b :: bs, j :: js =>
    let r := rrPass bs js
    ((b ++ [j]) :: r.1, r.2)

theorem rrPass_snd_length_le (groups : List (List α)) (jobs : List α) :
    (rrPass groups jobs).2.length ≤ jobs.length := by
  induction groups generalizing jobs with
  | nil => simp [rrPass]
  | cons b bs ih =>
    cases jobs with
    | nil => simp [rrPass]
    | cons j js =>
      simpa [rrPass] using Nat.le_trans (ih js) (Nat.le_succ _)

theorem rrPass_snd_length_lt (b : List α) (bs : List (List α)) (j : α) (js : List α) :
    (rrPass (b :: bs) (j :: js)).2.length < (j :: js).length := by
  simpa [rrPass] using Nat.lt_succ_of_le (rrPass_snd_length_le bs js)

/-- The `while jobs:` loop of `chunk_jobs`.  A `none` result marks the case
where the Python loop never terminates (no batches but jobs remain). -/
def rrLoop : List (List α) → List α → Option (List (List α))
  | groups, [] => some groups
  | [], _ :: _ => none
  | b :: bs, j :: js =>
    rrLoop (rrPass (b :: bs) (j :: js)).1 (rrPass (b :: bs) (j :: js)).2
termination_by _ jobs => jobs.length
decreasing_by exact rrPass_snd_length_lt b bs j js

/-- Fuel-indexed variant of `rrLoop`, used to evaluate it on concrete
inputs (the well-founded recursion of `rrLoop` does not reduce in the
kernel).  `jobs.length` units of fuel always suffice, because every loop
iteration with a nonempty batch dictionary pops at least one job. -/
def rrLoopFuel : Nat → List (List α) → List α → Option (List (List α))
  | _, groups, [] => some groups
  | _, [], _ :: _ => none
  | 0, _ :: _, _ :: _ => none
  | f + 1, b :: bs, j :: js =>
    rrLoopFuel f (rrPass (b :: bs) (j :: js)).1 (rrPass (b :: bs) (j :: js)).2

theorem rrLoopFuel_eq (f : Nat) (groups : List (List α)) (jobs : List α)
    (hf : jobs.length ≤ f) : rrLoopFuel f groups jobs = rrLoop groups jobs := by
  induction f generalizing groups jobs with
  | zero =>
    cases jobs with
    | nil => rw [rrLoopFuel, rrLoop]
    | cons j js => simp at hf
  | succ m ih =>
    cases jobs with
    | nil => rw [rrLoopFuel, rrLoop]
    | cons j js =>
      cases groups with
      | nil => rw [rrLoopFuel, rrLoop]
      | cons b bs =>
        rw [rrLoopFuel, rrLoop]
        apply ih
        have h1 := rrPass_snd_length_lt b bs j js
        simp only [List.length_cons] at h1 hf
        omega

/-- `SsmParameterTool.chunk_jobs`, restricted to the construction of the
batches (`job_groups`); the S3 writes it performs are modelled by
`chunk_jobs_writes` below.  Defined through `rrLoopFuel` so that it reduces
on concrete inputs; `chunk_jobs_eq_loop` identifies it with the direct
embedding `rrLoop` of the `while jobs:` loop. -/
def chunk_jobs (jobs : List α) (max_batches : Nat) : Option (List (List α)) :=
  let number_of_batches := if jobs.length < max_batches then jobs.length else max_batches
  rrLoopFuel jobs.length (List.replicate number_of_batches ([] : List α)) jobs

theorem chunk_jobs_eq_loop (jobs : List α) (max_batches : Nat) :
    chunk_jobs jobs max_batches =
      rrLoop
        (List.replicate
          (if jobs.length < max_batches then jobs.length else max_batches)
          ([] : List α)) jobs :=
  rrLoopFuel_eq _ _ _ (Nat.le_refl _)

/-- The keys `chunk_jobs` writes: one `put_object_` per batch in
`job_groups`, at key `f"{s3_prefix}/{region}/batch-{x}"`. -/
def batchKeys (keyPre region : String) (n : Nat) : List String :=
  (List.range n).map (fun x => keyPre ++ "/" ++ region ++ "/batch-" ++ toString x)

/-- The list of S3 keys written by a `chunk_jobs` call (one write per batch,
in dict order `batch-0`, `batch-1`, ...). -/
def chunk_jobs_writes (jobs : List α) (region keyPre : String) (max_batches : Nat) :
    Option (List String) :=
  (chunk_jobs jobs max_batches).map (fun gs => batchKeys keyPre region gs.length)

theorem rrPass_fst_length (groups : List (List α)) (jobs : List α) :
    (rrPass groups jobs).1.length = groups.length := by
  induction groups generalizing jobs with
  | nil => simp [rrPass]
  | cons b bs ih =>
    cases jobs with
    | nil => simp [rrPass]
    | cons j js => simp [rrPass, ih]

theorem rrPass_perm (groups : List (List α)) (jobs : List α) :
    List.Perm ((rrPass groups jobs).1.flatten ++ (rrPass groups jobs).2)
      (groups.flatten ++ jobs) := by
  induction groups generalizing jobs with
  | nil => simp [rrPass]
  | cons b bs ih =>
    cases jobs with
    | nil => simp [rrPass]
    | cons j js =>
      have ihp := ih js
      simp only [rrPass, List.flatten_cons, List.append_assoc, List.singleton_append]
      exact List.Perm.append_left b ((ihp.cons j).trans List.perm_middle.symm)

theorem rrLoop_length (groups : List (List α)) (jobs : List α) :
    ∀ gs, rrLoop groups jobs = some gs → gs.length = groups.length := by
  induction groups, jobs using rrLoop.induct with
  | case1 groups =>
    intro gs h
    simp [rrLoop] at h
    simp [h]
  | case2 j js =>
    intro gs h
    simp [rrLoop] at h
  | case3 b bs j js ih =>
    intro gs h
    rw [rrLoop] at h
    have := ih gs h
    simpa [rrPass_fst_length] using this

theorem rrLoop_perm (groups : List (List α)) (jobs : List α) :
    ∀ gs, rrLoop groups jobs = some gs →
      List.Perm gs.flatten (groups.flatten ++ jobs) := by
  induction groups, jobs using rrLoop.induct with
  | case1 groups =>
    intro gs h
    simp only [rrLoop, Option.some.injEq] at h
    simp [← h]
  | case2 j js =>
    intro gs h
    simp [rrLoop] at h
  | case3 b bs j js ih =>
    intro gs h
    rw [rrLoop] at h
    have h1 := ih gs h
    have h2 := rrPass_perm (b :: bs) (j :: js)
    exact h1.trans h2

theorem rrLoop_isSome (groups : List (List α)) (jobs : List α)
    (h : groups ≠ [] ∨ jobs = []) : (rrLoop groups jobs).isSome := by
  induction groups, jobs using rrLoop.induct with
  | case1 groups => simp [rrLoop]
  | case2 j js => simp at h
  | case3 b bs j js ih =>
    rw [rrLoop]
    apply ih
    by_cases hr : (rrPass (b :: bs) (j :: js)).2 = []
    · exact Or.inr hr
    · refine Or.inl ?_
      have := rrPass_fst_length (b :: bs) (j :: js)
      intro hnil
      rw [hnil] at this
      simp at this

theorem flatten_replicate_nil (n : Nat) :
    (List.replicate n ([] : List α)).flatten = [] := by
  induction n with
  | zero => rfl
  | succ m ih => simp [List.replicate, ih]

theorem rrPass_mem_length (groups : List (List α)) (jobs : List α) (L : Nat)
    (h : ∀ g ∈ groups, g.length = L) :
    ∀ g ∈ (rrPass groups jobs).1, g.length = L ∨ g.length = L + 1 := by
  induction groups generalizing jobs with
  | nil => simp [rrPass]
  | cons b bs ih =>
    cases jobs with
    | nil =>
      intro g hg
      exact Or.inl (h g (by simpa [rrPass] using hg))
    | cons j js =>
      intro g hg
      simp only [rrPass, List.mem_cons] at hg
      rcases hg with hg | hg
      · right
        rw [hg]
        simp [h b (List.mem_cons_self b bs)]
      · exact ih js (fun g' hg' => h g' (List.mem_cons_of_mem b hg')) g hg

theorem rrPass_rest_nonempty (groups : List (List α)) (jobs : List α) (L : Nat)
    (h : ∀ g ∈ groups, g.length = L)
    (hne : (rrPass groups jobs).2 ≠ []) :
    ∀ g ∈ (rrPass groups jobs).1, g.length = L + 1 := by
  induction groups generalizing jobs with
  | nil => simp [rrPass]
  | cons b bs ih =>
    cases jobs with
    | nil => simp [rrPass] at hne
    | cons j js =>
      intro g hg
      simp only [rrPass, List.mem_cons] at hg
      simp only [rrPass] at hne
      rcases hg with hg | hg
      · rw [hg]
        simp [h b (List.mem_cons_self b bs)]
      · exact ih js (fun g' hg' => h g' (List.mem_cons_of_mem b hg')) hne g hg

theorem rrLoop_sizes (groups : List (List α)) (jobs : List α) :
    ∀ L gs, (∀ g ∈ groups, g.length = L) → rrLoop groups jobs = some gs →
      ∃ K, ∀ g ∈ gs, g.length = K ∨ g.length = K + 1 := by
  induction groups, jobs using rrLoop.induct with
  | case1 groups =>
    intro L gs h hg
    simp only [rrLoop, Option.some.injEq] at hg
    exact ⟨L, fun g hmem => Or.inl (h g (hg ▸ hmem))⟩
  | case2 j js =>
    intro L gs h hg
    simp [rrLoop] at hg
  | case3 b bs j js ih =>
    intro L gs h hg
    rw [rrLoop] at hg
    by_cases hr : (rrPass (b :: bs) (j :: js)).2 = []
    · rw [hr, rrLoop, Option.some.injEq] at hg
      exact ⟨L, hg ▸ rrPass_mem_length (b :: bs) (j :: js) L h⟩
    · exact ih (L + 1) gs (rrPass_rest_nonempty (b :: bs) (j :: js) L h hr) hg

theorem chunk_jobs_isSome (jobs : List α) (M : Nat) (hM : 1 ≤ M) :
    (chunk_jobs jobs M).isSome := by
  rw [chunk_jobs_eq_loop]
  apply rrLoop_isSome
  cases jobs with
  | nil => exact Or.inr rfl
  | cons j js =>
    left
    intro hnil
    have hlen := congrArg List.length hnil
    simp only [List.length_replicate, List.length_nil, List.length_cons] at hlen
    revert hlen
    split <;> omega

theorem chunk_jobs_length (jobs : List α) (M : Nat) (gs : List (List α))
    (h : chunk_jobs jobs M = some gs) : gs.length = min jobs.length M := by
  rw [chunk_jobs_eq_loop] at h
  have := rrLoop_length _ _ gs h
  rw [this, List.length_replicate]
  split <;> omega

/-- C1: for every job list `J` and every `maxBatches = M ≥ 1`, `chunk_jobs`
terminates and the batches it produces contain, with multiplicity, exactly
the elements of `J`: the concatenation of all batches is a permutation of
`J` (no loss, no duplication). -/
theorem claim_C1_partition_completeness (jobs : List α) (M : Nat) (hM : 1 ≤ M) :
    ∃ gs, chunk_jobs jobs M = some gs ∧ List.Perm gs.flatten jobs := by
  obtain ⟨gs, hgs⟩ := Option.isSome_iff_exists.mp (chunk_jobs_isSome jobs M hM)
  refine ⟨gs, hgs, ?_⟩
  rw [chunk_jobs_eq_loop] at hgs
  have hp := rrLoop_perm _ _ gs hgs
  rwa [flatten_replicate_nil, List.nil_append] at hp

/-- Witness for C1 at a concrete input: 5 jobs into at most 2 batches. -/
theorem claim_C1_partition_completeness_witness :
    ∃ gs, chunk_jobs [1, 2, 3, 4, 5] 2 = some gs ∧
      List.Perm gs.flatten [1, 2, 3, 4, 5] :=
  claim_C1_partition_completeness [1, 2, 3, 4, 5] 2 (by decide)

/-- Counterexample to C2 as stated: the claim quantifies over every
`maxBatches M`, but with `M = 0` and a nonempty job list the
`while jobs:` loop of `chunk_jobs` iterates over an empty batch dictionary
and never terminates (modelled by `none`), so it does not produce
`min(len(J), M) = 0` batches — it produces nothing at all. -/
theorem claim_C2_counterexample : chunk_jobs [0] 0 = none := by
  decide

set_option maxRecDepth 10000 in
/-- C2 (amended: `maxBatches = M ≥ 1`; at `M = 0` with nonempty input the
loop diverges): `chunk_jobs` produces exactly `min(len(J), M)` batches whose
sizes differ pairwise by at most 1; an empty job list yields zero batches
and zero blob-store writes; and 230 jobs with `maxBatches = 100` yield 100
batches, 30 of size 3 and 70 of size 2. -/
theorem claim_C2_partition_fairness (jobs : List α) (M : Nat) (hM : 1 ≤ M) :
    (∃ gs, chunk_jobs jobs M = some gs ∧ gs.length = min jobs.length M ∧
      ∀ g1 ∈ gs, ∀ g2 ∈ gs, g1.length ≤ g2.length + 1) ∧
    (∀ region keyPre, chunk_jobs_writes ([] : List α) region keyPre M = some []) ∧
    (chunk_jobs (List.range 230) 100).map
        (fun gs => (gs.length, (gs.map List.length).count 3, (gs.map List.length).count 2))
      = some (100, 30, 70) := by
  refine ⟨?_, ?_, ?_⟩
  · obtain ⟨gs, hgs⟩ := Option.isSome_iff_exists.mp (chunk_jobs_isSome jobs M hM)
    refine ⟨gs, hgs, chunk_jobs_length jobs M gs hgs, ?_⟩
    rw [chunk_jobs_eq_loop] at hgs
    obtain ⟨K, hK⟩ := rrLoop_sizes _ jobs 0 gs (by simp) hgs
    intro g1 h1 g2 h2
    rcases hK g1 h1 with e1 | e1 <;> rcases hK g2 h2 with e2 | e2 <;> omega
  · intro region keyPre
    have h0 : chunk_jobs ([] : List α) M = some [] := by
      simp [chunk_jobs, rrLoopFuel]
    simp [chunk_jobs_writes, h0, batchKeys]
  · decide

/-- Witness for C2 (amended) at a concrete input. -/
theorem claim_C2_partition_fairness_witness :
    (∃ gs, chunk_jobs [1, 2, 3] 2 = some gs ∧ gs.length = min 3 2 ∧
      ∀ g1 ∈ gs, ∀ g2 ∈ gs, g1.length ≤ g2.length + 1) ∧
    (∀ region keyPre, chunk_jobs_writes ([] : List Nat) region keyPre 2 = some []) ∧
    (chunk_jobs (List.range 230) 100).map
        (fun gs => (gs.length, (gs.map List.length).count 3, (gs.map List.length).count 2))
      = some (100, 30, 70) := by
  have h := claim_C2_partition_fairness ([1, 2, 3] : List Nat) 2 (by decide)
  simpa using h

/-!
The S3 bucket (layers/utilities/aws/s3_utilities.py) is modelled as the
list of keys present, in insertion order; object bodies are not inspected
by any verified property and are elided.  `list_bucket_keys` filters the
bucket by key prefix and drops a key equal to the prefix itself (the
source's `if item["Key"] != prefix` check); its `{"Key": k}` wrapping is
dropped.  `delete_objects_` chunks its keys 1000 per call in the source;
the net effect — removal of all the given keys — is modelled directly.
-/

/-- Boolean string-prefix test on the underlying character lists (the
server-side `Prefix=` filter of `list_objects_v2`). -/
def listStarts : List Char → List Char → Bool
  | [], _ => true
  | _ :: _, [] => false
  | a :: as, b :: bs => a == b && listStarts as bs

/-- `k` lies strictly under prefix `p`. -/
def keyUnder (p k : String) : Bool :=
  listStarts p.data k.data && k != p

/-- The S3 bucket: keys present, in insertion order. -/
abbrev S3 := List String

/-- `S3Utilities.list_bucket_keys` (keys with the given prefix, excluding a
key equal to the prefix itself). -/
def list_bucket_keys (st : S3) (p : String) : List String :=
  st.filter (fun k => keyUnder p k)

/-- `S3Utilities.put_object_`: a fresh key is appended, overwriting an
existing object leaves the key set unchanged. -/
def put_object_ (st : S3) (k : String) : S3 :=
  if st.contains k then st else st ++ [k]

/-- `S3Utilities.delete_objects_`: removes all the given keys. -/
def delete_objects_ (st : S3) (keys : List String) : S3 :=
  st.filter (fun k => !(keys.contains k))

/-- `SsmParameterTool.clean_up_s3`: for each prefix, list the keys under it
and delete them. -/
def clean_up_s3 (st : S3) (to_clean : List String) : S3 :=
  to_clean.foldl (fun s p => delete_objects_ s (list_bucket_keys s p)) st

theorem mem_put_object_ (st : S3) (k k' : String) :
    k' ∈ put_object_ st k ↔ k' ∈ st ∨ k' = k := by
  unfold put_object_
  split
  · rename_i hc
    rw [List.elem_iff] at hc
    constructor
    · exact Or.inl
    · rintro (h | h)
      · exact h
      · exact h ▸ hc
  · simp

theorem list_bucket_keys_eq_nil (st : S3) (p : String) :
    list_bucket_keys st p = [] ↔ ∀ k ∈ st, ¬ keyUnder p k := by
  simp [list_bucket_keys, List.filter_eq_nil_iff]

theorem mem_delete_objects_ (st : S3) (keys : List String) (k : String) :
    k ∈ delete_objects_ st keys ↔ k ∈ st ∧ ¬ k ∈ keys := by
  simp [delete_objects_, List.mem_filter, List.elem_iff]

theorem delete_listed_nil (st : S3) (p : String) :
    list_bucket_keys (delete_objects_ st (list_bucket_keys st p)) p = [] := by
  rw [list_bucket_keys_eq_nil]
  intro k hk hu
  rw [mem_delete_objects_] at hk
  exact hk.2 (by simp [list_bucket_keys, List.mem_filter, hk.1, hu])

theorem mem_clean_up_s3 (to_clean : List String) (st : S3) (k : String)
    (h : k ∈ clean_up_s3 st to_clean) : k ∈ st := by
  induction to_clean generalizing st with
  | nil => exact h
  | cons p ps ih =>
    have := ih _ h
    rw [mem_delete_objects_] at this
    exact this.1

theorem clean_up_s3_listed_nil (to_clean : List String) (st : S3) (p : String)
    (hp : p ∈ to_clean) : list_bucket_keys (clean_up_s3 st to_clean) p = [] := by
  induction to_clean generalizing st with
  | nil => simp at hp
  | cons q qs ih =>
    rcases List.mem_cons.mp hp with rfl | hmem
    · by_cases hq : p ∈ qs
      · exact ih _ hq
      · rw [list_bucket_keys_eq_nil]
        intro k hk
        have hk1 := mem_clean_up_s3 qs _ k hk
        have h0 := delete_listed_nil st p
        rw [list_bucket_keys_eq_nil] at h0
        exact h0 k hk1
    · exact ih _ hmem

/-!
Job execution (`SsmParameterTool.run_job`, `post_error`, `check_for_errors`
and `main`).  The remote SSM operations (`create_update_parameters`,
`rename_parameters`, `fix_tags`, `remove_parameters`) receive the job's
`args` and either return `True` or raise `SsmToolException`; this embedding
abstracts each job's remote operation by the flag `opRaises` and therefore
models `args` by its presence only (`Option Unit`): the only direct use of
`args` in `run_job` itself is `args.get("tags")`, which raises
`AttributeError` when `args` is `None`.  The `datetime.utcnow()` timestamp
used in error-record keys is modelled by a monotone counter `clock`.
-/

/-- A job mapping as consumed by `run_job`.  `job.get("region", "us-east-1")`
and the other lookups are modelled as plain fields (the claims never
exercise a missing `region`/`account`/`action`). -/
structure JobDesc where
  action : String
  region : String
  account : String
  args : Option Unit
  opRaises : Bool
deriving DecidableEq

/-- The job actions `run_job` dispatches on. -/
def knownJobActions : List String := ["create", "update", "rename", "fix_tags", "remove"]

/-- The `caller` string `run_job` passes to `post_error`:
`f"run_job/{action}/{region}/{account}"`. -/
def JobDesc.caller (j : JobDesc) : String :=
  "run_job/" ++ j.action ++ "/" ++ j.region ++ "/" ++ j.account

/-- The per-context error prefix `run_job` cleans before executing:
`f"ssm_tool/errors/run_job/{action}/{region}/{account}/"`. -/
def JobDesc.errPre (j : JobDesc) : String :=
  "ssm_tool/errors/" ++ j.caller ++ "/"

/-- Whether `run_job`'s `try` block raises for this job: the remote
operation raises, or the job action is unknown (which raises
`SsmToolException` inside the `try`). -/
def JobDesc.fails (j : JobDesc) : Bool :=
  if knownJobActions.contains j.action then j.opRaises else true

/-- `SsmParameterTool.post_error`: one S3 write at
`f"ssm_tool/errors/{caller}/{timestamp}.txt"`. -/
def post_error (st : S3) (clock : Nat) (caller : String) : S3 × Nat :=
  (put_object_ st ("ssm_tool/errors/" ++ caller ++ "/" ++ toString clock ++ ".txt"),
    clock + 1)

/-- `SsmParameterTool.run_job`.  `none` models the uncaught
`AttributeError` raised by `args.get("tags")` when the job has no `args`
mapping — it occurs before `clean_up_s3` and before the `try` block, so
nothing is written or deleted.  Otherwise the per-context error prefix is
cleaned, the job's operation runs, a failure is swallowed into one error
record, and `run_job` returns `True` (modelled by `some`). -/
def run_job (st : S3) (clock : Nat) (j : JobDesc) : Option (S3 × Nat) :=
  match j.args with
  | none => none
  | some _ =>
    let st1 := clean_up_s3 st [j.errPre]
    if j.fails then some (post_error st1 clock j.caller) else some (st1, clock)

/-- The `for job in jobs: app.run_job(job)` loop of `main`'s `run_job`
branch.  Also returns the list of jobs whose operation was actually
invoked; an uncaught exception (`none`) aborts the remaining loop. -/
def run_batch (st : S3) (clock : Nat) : List JobDesc → Option (S3 × Nat × List JobDesc)
  | [] => some (st, clock, [])
  | j :: rest =>
    match run_job st clock j with
    | none => none
    | some (st2, c2) =>
      match run_batch st2 c2 rest with
      | none => none
      | some (st3, c3, ex) => some (st3, c3, j :: ex)

/-- `SsmParameterTool.check_for_errors`: lists keys under
`ssm_tool/errors/`; raises `SsmToolException` enumerating them if any
exist (`Except.error` carries the enumerated keys), else returns `True`. -/
def check_for_errors (st : S3) : Except (List String) Bool :=
  let errors := list_bucket_keys st "ssm_tool/errors/"
  if errors.isEmpty then Except.ok true else Except.error errors

/-- A job dict built by `make_jobs`:
`{"action": action, "region": region, "account": account, "args": args}`
(`args` is forwarded verbatim and elided here). -/
structure InitJob where
  action : String
  region : String
  account : String
deriving DecidableEq

/-- The per-region job list `make_jobs` builds. -/
def make_region_jobs (action region : String) (accounts : List String) : List InitJob :=
  accounts.map (fun a => ⟨action, region, a⟩)

/-- `SsmParameterTool.make_jobs`: for each region, chunk its jobs into at
most 100 batches, write each batch to
`ssm_tool/jobs/{region}/batch-{x}`, and collect the returned key handles
`ssm_tool/jobs/{region}/`.  `none` marks `chunk_jobs` divergence
(unreachable at `max_batches = 100`). -/
def make_jobs (st : S3) (action : String) (account_list : List (String × List String)) :
    Option (S3 × List String) :=
  account_list.foldl
    (fun acc rc =>
      match acc with
      | none => none
      | some (s, keys) =>
        match chunk_jobs_writes (make_region_jobs action rc.1 rc.2) rc.1 "ssm_tool/jobs" 100 with
        | none => none
        | some ws =>
          some (ws.foldl put_object_ s, keys ++ ["ssm_tool/jobs/" ++ rc.1 ++ "/"]))
    (some (st, []))

/-- The `init` branch of `main`: clean both run prefixes, fetch the account
list (a pure S3 read, abstracted as the `account_list` argument), then
`make_jobs`. -/
def main_init (st : S3) (job_action : String)
    (account_list : List (String × List String)) : Option (S3 × List String) :=
  let st1 := clean_up_s3 st ["ssm_tool/jobs/", "ssm_tool/errors/"]
  make_jobs st1 job_action account_list

/-- The event passed to `main`.  `accounts` abstracts the account list
`get_accounts` reads from S3 during `init`; `jobs` abstracts the batch
content `get_jobs(event["job_key"])` reads during `run_job` (the store
model tracks keys only). -/
structure Event where
  action : String
  job_action : String
  accounts : List (String × List String)
  s3_key : String
  jobs : List JobDesc
deriving DecidableEq

/-- The `res` values `main` can return:
`[{"action": "divide_jobs", "s3_key": k} ...]`,
`[{"action": "run_job", "job_key": k} ...]`, `{"action": "error_check"}`
and `{"result": "Success!"}`. -/
inductive MainRes
  | divideConts (keys : List String)
  | runConts (keys : List String)
  | errorCheck
  | result (msg : String)
deriving DecidableEq

/-- Exceptions escaping `main` (its `except` clause re-raises every
exception as a generic `Exception`, so each of these is a fatal lambda
failure; the constructor records which underlying error occurred). -/
inductive MainErr
  | unknownAction (a : String)
  | errorsDetected (keys : List String)
  | attrError
  | diverge
deriving DecidableEq

/-- `main` (lambdas/ssm_parameter_tool/ssm_parameter_tool.py, lines
378-415): dispatch on `event["action"]`. -/
def main (st : S3) (clock : Nat) (ev : Event) : Except MainErr (S3 × Nat × MainRes) :=
  if ev.action = "init" then
    match main_init st ev.job_action ev.accounts with
    | none => Except.error MainErr.diverge
    | some (st1, keys) => Except.ok (st1, clock, MainRes.divideConts keys)
  else if ev.action = "divide_jobs" then
    Except.ok (st, clock, MainRes.runConts (list_bucket_keys st ev.s3_key))
  else if ev.action = "run_job" then
    match run_batch st clock ev.jobs with
    | none => Except.error MainErr.attrError
    | some (st2, c2, _) => Except.ok (st2, c2, MainRes.errorCheck)
  else if ev.action = "error_check" then
    match check_for_errors st with
    | Except.ok _ => Except.ok (st, clock, MainRes.result "Success!")
    | Except.error keys => Except.error (MainErr.errorsDetected keys)
  else Except.error (MainErr.unknownAction ev.action)

theorem listStarts_append_self (l y : List Char) : listStarts l (l ++ y) = true := by
  induction l with
  | nil => simp [listStarts]
  | cons a as ih => simp [listStarts, ih]

theorem listStarts_mismatch (com : List Char) (a b : Char) (hab : a ≠ b)
    (as bs : List Char) : listStarts (com ++ a :: as) (com ++ b :: bs) = false := by
  induction com with
  | nil => simp [listStarts, hab]
  | cons c cs ih => simp [listStarts, ih]

theorem keyUnder_append (p x : String) (hx : x.data ≠ []) :
    keyUnder p (p ++ x) = true := by
  unfold keyUnder
  rw [String.data_append, listStarts_append_self]
  simp only [Bool.true_and, bne_iff_ne, ne_eq]
  intro hpx
  apply hx
  have hd := congrArg String.data hpx
  rw [String.data_append] at hd
  have hlen := congrArg List.length hd
  rw [List.length_append] at hlen
  have hz : x.data.length = 0 := by omega
  exact List.length_eq_zero.mp hz

theorem list_bucket_keys_put_of_under (st : S3) (p k : String)
    (hk : keyUnder p k = true) (hmem : k ∉ st) :
    list_bucket_keys (put_object_ st k) p = list_bucket_keys st p ++ [k] := by
  unfold put_object_
  split
  · rename_i hc
    rw [List.elem_iff] at hc
    exact absurd hc hmem
  · simp [list_bucket_keys, List.filter_append, hk]

theorem list_bucket_keys_put_of_not_under (st : S3) (p k : String)
    (hk : keyUnder p k = false) :
    list_bucket_keys (put_object_ st k) p = list_bucket_keys st p := by
  unfold put_object_
  split
  · rfl
  · simp [list_bucket_keys, List.filter_append, hk]

theorem mem_foldl_put (ws : List String) (st : S3) (k : String) :
    k ∈ ws.foldl put_object_ st ↔ k ∈ st ∨ k ∈ ws := by
  induction ws generalizing st with
  | nil => simp
  | cons w ws ih =>
    rw [List.foldl_cons, ih, mem_put_object_]
    simp only [List.mem_cons]
    tauto

theorem list_bucket_keys_foldl_put_of_not_under (ws : List String) (st : S3) (p : String)
    (h : ∀ k ∈ ws, keyUnder p k = false) :
    list_bucket_keys (ws.foldl put_object_ st) p = list_bucket_keys st p := by
  induction ws generalizing st with
  | nil => rfl
  | cons w ws ih =>
    rw [List.foldl_cons, ih _ (fun k hk => h k (List.mem_cons_of_mem w hk)),
      list_bucket_keys_put_of_not_under _ _ _ (h w (List.mem_cons_self w ws))]

/-- Characterization of a `run_job` call on a job whose `args` is present:
it returns `True`, and afterwards the keys under the job's per-context
error prefix are exactly the one record just written when the job's
operation raised, and none otherwise (any pre-existing records under that
context are deleted by the pre-cleanup). -/
theorem run_job_some (st : S3) (c : Nat) (j : JobDesc) (h : j.args = some ()) :
    ∃ st' c', run_job st c j = some (st', c') ∧
      list_bucket_keys st' j.errPre =
        (if j.fails then [j.errPre ++ toString c ++ ".txt"] else []) ∧
      c' = (if j.fails then c + 1 else c) := by
  unfold run_job
  rw [h]
  have h1 : list_bucket_keys (clean_up_s3 st [j.errPre]) j.errPre = [] :=
    clean_up_s3_listed_nil _ st _ (by simp)
  by_cases hf : j.fails
  · refine ⟨_, _, by rw [if_pos hf], ?_, by rw [if_pos hf]; rfl⟩
    rw [if_pos hf]
    unfold post_error
    have hkey : ("ssm_tool/errors/" ++ j.caller ++ "/" ++ toString c ++ ".txt") =
        j.errPre ++ toString c ++ ".txt" := rfl
    rw [hkey]
    have hunder : keyUnder j.errPre (j.errPre ++ toString c ++ ".txt") = true := by
      rw [String.append_assoc]
      apply keyUnder_append
      rw [String.data_append]
      simp
    have hnotmem : (j.errPre ++ toString c ++ ".txt") ∉ clean_up_s3 st [j.errPre] := by
      intro hmem
      have : (j.errPre ++ toString c ++ ".txt") ∈
          list_bucket_keys (clean_up_s3 st [j.errPre]) j.errPre := by
        simp [list_bucket_keys, List.mem_filter, hmem, hunder]
      rw [h1] at this
      simp at this
    rw [list_bucket_keys_put_of_under _ _ _ hunder hnotmem, h1, List.nil_append]
  · exact ⟨_, _, by rw [if_neg hf], by rw [if_neg hf, h1], by rw [if_neg hf]⟩

/-- Counterexample to C3 as stated: a batch of 5 jobs that share one
(action, region, account) context, where job 3's operation raises.  All
five jobs execute, but the error-record count increases by 0, not 1: job
4's pre-cleanup (`clean_up_s3` on the shared context prefix) deletes job
3's freshly written record, so after the batch the error listing is empty. -/
theorem claim_C3_counterexample :
    ∃ stc, run_batch [] 0
        [⟨"update", "us-east-1", "a1", some (), false⟩,
         ⟨"update", "us-east-1", "a1", some (), false⟩,
         ⟨"update", "us-east-1", "a1", some (), true⟩,
         ⟨"update", "us-east-1", "a1", some (), false⟩,
         ⟨"update", "us-east-1", "a1", some (), false⟩] = some stc ∧
      stc.2.2.length = 5 ∧
      list_bucket_keys stc.1 "ssm_tool/errors/" = [] := by
  refine ⟨_, rfl, ?_, ?_⟩ <;> decide

/-- C3 (amended: the error-record count increases by exactly 1 provided no
later job in the batch shares the failing job's (action, region, account)
context — a later same-context job's pre-cleanup deletes the record):
an exception raised by a job's operation is caught inside `run_job` and
converted into exactly one persisted error record under that job's context
prefix, and `run_job` still returns `True` so the batch loop continues; in
a batch of 5 distinct-context jobs where job 3 raises, all 5 jobs execute
and the run's error listing afterwards holds exactly job 3's record. -/
theorem claim_C3_partial_failure_isolation :
    (∀ (st : S3) (c : Nat) (j : JobDesc), j.args = some () → j.fails = true →
      ∃ st' c', run_job st c j = some (st', c') ∧
        list_bucket_keys st' j.errPre = [j.errPre ++ toString c ++ ".txt"]) ∧
    (∃ stc, run_batch [] 0
        [⟨"update", "us-east-1", "a1", some (), false⟩,
         ⟨"update", "us-east-1", "a2", some (), false⟩,
         ⟨"update", "us-east-1", "a3", some (), true⟩,
         ⟨"update", "us-east-1", "a4", some (), false⟩,
         ⟨"update", "us-east-1", "a5", some (), false⟩] = some stc ∧
      stc.2.2 =
        [⟨"update", "us-east-1", "a1", some (), false⟩,
         ⟨"update", "us-east-1", "a2", some (), false⟩,
         ⟨"update", "us-east-1", "a3", some (), true⟩,
         ⟨"update", "us-east-1", "a4", some (), false⟩,
         ⟨"update", "us-east-1", "a5", some (), false⟩] ∧
      list_bucket_keys stc.1 "ssm_tool/errors/" =
        ["ssm_tool/errors/run_job/update/us-east-1/a3/0.txt"]) := by
  constructor
  · intro st c j hargs hfail
    obtain ⟨st', c', hr, hl, _⟩ := run_job_some st c j hargs
    exact ⟨st', c', hr, by rwa [if_pos hfail] at hl⟩
  · refine ⟨_, rfl, ?_, ?_⟩ <;> decide

/-- Witness for C3 (amended) at a concrete input. -/
theorem claim_C3_partial_failure_isolation_witness :
    ∃ st' c', run_job [] 0 ⟨"update", "us-east-1", "a9", some (), true⟩ = some (st', c') ∧
      list_bucket_keys st'
          (JobDesc.errPre ⟨"update", "us-east-1", "a9", some (), true⟩) =
        [JobDesc.errPre ⟨"update", "us-east-1", "a9", some (), true⟩ ++ toString 0 ++ ".txt"] :=
  claim_C3_partial_failure_isolation.1 [] 0 _ rfl (by decide)

/-- C4: the `error_check` stage raises a terminal exception enumerating
every key under the run's error prefix if and only if at least one error
record exists there; with no records it succeeds and `main` returns
`Success!`.  `check_for_errors` is a pure read of the store (its result
depends only on the store, so repeated calls without new errors agree). -/
theorem claim_C4_error_check (st : S3) (c : Nat) (ev : Event)
    (ha : ev.action = "error_check") :
    (check_for_errors st = Except.error (list_bucket_keys st "ssm_tool/errors/") ↔
      list_bucket_keys st "ssm_tool/errors/" ≠ []) ∧
    ((∃ k ∈ st, keyUnder "ssm_tool/errors/" k = true) ↔
      list_bucket_keys st "ssm_tool/errors/" ≠ []) ∧
    (list_bucket_keys st "ssm_tool/errors/" = [] →
      main st c ev = Except.ok (st, c, MainRes.result "Success!")) ∧
    (list_bucket_keys st "ssm_tool/errors/" ≠ [] →
      main st c ev = Except.error
        (MainErr.errorsDetected (list_bucket_keys st "ssm_tool/errors/"))) := by
  refine ⟨?_, ?_, ?_, ?_⟩
  · unfold check_for_errors
    constructor
    · intro h hnil
      rw [hnil] at h
      simp at h
    · intro h
      rw [if_neg (by simpa [List.isEmpty_iff] using h)]
  · constructor
    · rintro ⟨k, hk, hu⟩ hnil
      rw [list_bucket_keys_eq_nil] at hnil
      exact hnil k hk (by simp [hu])
    · intro h
      rcases List.exists_mem_of_ne_nil _ h with ⟨k, hk⟩
      rw [list_bucket_keys, List.mem_filter] at hk
      exact ⟨k, hk.1, hk.2⟩
  · intro h
    simp only [main, ha]
    simp [check_for_errors, h]
  · intro h
    have hne : (list_bucket_keys st "ssm_tool/errors/").isEmpty = false := by
      simpa [List.isEmpty_iff] using h
    simp only [main, ha]
    simp [check_for_errors, hne]

/-- Witness for C4 at concrete inputs with and without an error record. -/
theorem claim_C4_error_check_witness :
    (check_for_errors ["ssm_tool/errors/run_job/x/0.txt"] =
        Except.error (list_bucket_keys ["ssm_tool/errors/run_job/x/0.txt"] "ssm_tool/errors/") ↔
      list_bucket_keys ["ssm_tool/errors/run_job/x/0.txt"] "ssm_tool/errors/" ≠ []) ∧
    ((∃ k ∈ ["ssm_tool/errors/run_job/x/0.txt"], keyUnder "ssm_tool/errors/" k = true) ↔
      list_bucket_keys ["ssm_tool/errors/run_job/x/0.txt"] "ssm_tool/errors/" ≠ []) ∧
    (list_bucket_keys ["ssm_tool/errors/run_job/x/0.txt"] "ssm_tool/errors/" = [] →
      main ["ssm_tool/errors/run_job/x/0.txt"] 0 ⟨"error_check", "", [], "", []⟩ =
        Except.ok (["ssm_tool/errors/run_job/x/0.txt"], 0, MainRes.result "Success!")) ∧
    (list_bucket_keys ["ssm_tool/errors/run_job/x/0.txt"] "ssm_tool/errors/" ≠ [] →
      main ["ssm_tool/errors/run_job/x/0.txt"] 0 ⟨"error_check", "", [], "", []⟩ =
        Except.error (MainErr.errorsDetected
          (list_bucket_keys ["ssm_tool/errors/run_job/x/0.txt"] "ssm_tool/errors/"))) :=
  claim_C4_error_check ["ssm_tool/errors/run_job/x/0.txt"] 0 ⟨"error_check", "", [], "", []⟩ rfl

/-- Counterexample to C8 as stated: a job whose `action` is not a
recognized job action is NOT surfaced immediately as a failure.  `main` on
a `run_job` event containing the job `{"action": "bogus", ...}` returns
successfully (continuing to `error_check`), because the
`SsmToolException` raised for the unknown job action inside `run_job`'s
`try` block is caught by its `except` clause and converted into a
persisted error record. -/
theorem claim_C8_counterexample :
    main [] 0 ⟨"run_job", "", [], "", [⟨"bogus", "us-east-1", "a1", some (), false⟩]⟩ =
      Except.ok (["ssm_tool/errors/run_job/bogus/us-east-1/a1/0.txt"], 1,
        MainRes.errorCheck) := by
  rfl

/-- C8 (amended: only an unknown *event* `action` discriminator is fatal
and surfaced immediately; an unknown *job* action inside `run_job` is
caught and persisted as an error record, so it only fails the run later at
`error_check`): for every event whose `action` is not one of `init`,
`divide_jobs`, `run_job`, `error_check`, `main` raises immediately
(`SsmToolException`, re-raised as a fatal `Exception`); for every job
whose action is not a recognized job action (and whose `args` is present),
`run_job` swallows the validation error into exactly one error record and
returns `True`. -/
theorem claim_C8_validation_error :
    (∀ (st : S3) (c : Nat) (ev : Event),
      ev.action ∉ (["init", "divide_jobs", "run_job", "error_check"] : List String) →
      main st c ev = Except.error (MainErr.unknownAction ev.action)) ∧
    (∀ (st : S3) (c : Nat) (j : JobDesc), j.args = some () →
      knownJobActions.contains j.action = false →
      ∃ st' c', run_job st c j = some (st', c') ∧
        list_bucket_keys st' j.errPre = [j.errPre ++ toString c ++ ".txt"]) := by
  constructor
  · intro st c ev hev
    simp only [List.mem_cons, List.not_mem_nil, or_false, not_or] at hev
    obtain ⟨h1, h2, h3, h4⟩ := hev
    simp [main, h1, h2, h3, h4]
  · intro st c j hargs hact
    have hfail : j.fails = true := by
      unfold JobDesc.fails
      rw [hact]
      rfl
    obtain ⟨st', c', hr, hl, _⟩ := run_job_some st c j hargs
    exact ⟨st', c', hr, by rwa [if_pos hfail] at hl⟩

/-- Witness for C8 (amended) at concrete inputs. -/
theorem claim_C8_validation_error_witness :
    main [] 0 ⟨"frobnicate", "", [], "", []⟩ =
        Except.error (MainErr.unknownAction "frobnicate") ∧
    ∃ st' c', run_job [] 0 ⟨"bogus2", "eu-west-1", "a7", some (), false⟩ = some (st', c') ∧
      list_bucket_keys st'
          (JobDesc.errPre ⟨"bogus2", "eu-west-1", "a7", some (), false⟩) =
        [JobDesc.errPre ⟨"bogus2", "eu-west-1", "a7", some (), false⟩ ++ toString 0 ++ ".txt"] :=
  ⟨claim_C8_validation_error.1 [] 0 _ (by decide),
   claim_C8_validation_error.2 [] 0 _ rfl (by decide)⟩

/-- C9: before executing its job, every `run_job` call (on a job whose
`args` is present) deletes all existing error records under the job's
per-context error prefix `ssm_tool/errors/run_job/<action>/<region>/<account>/`:
after a non-failing `run_job` the listing under that prefix is empty no
matter what it held before.  Consequently, when two jobs sharing the same
(action, region, account) context run in sequence and the earlier one
fails, the later job's pre-cleanup removes the earlier job's error record,
and a subsequent `error_check` succeeds. -/
theorem claim_C9_pre_cleanup_clobbers :
    (∀ (st : S3) (c : Nat) (j : JobDesc), j.args = some () → j.fails = false →
      ∃ st' c', run_job st c j = some (st', c') ∧
        list_bucket_keys st' j.errPre = []) ∧
    (∃ stc, run_batch [] 0
        [⟨"update", "us-east-1", "a1", some (), true⟩,
         ⟨"update", "us-east-1", "a1", some (), false⟩] = some stc ∧
      list_bucket_keys stc.1 "ssm_tool/errors/" = [] ∧
      check_for_errors stc.1 = Except.ok true) := by
  constructor
  · intro st c j hargs hfail
    obtain ⟨st', c', hr, hl, _⟩ := run_job_some st c j hargs
    exact ⟨st', c', hr, by rwa [if_neg (by rw [hfail]; exact Bool.false_ne_true)] at hl⟩
  · exact ⟨_, rfl, by decide, rfl⟩

/-- Witness for C9 at a concrete input: an old error record for the
context exists, the job succeeds, and the record is gone afterwards. -/
theorem claim_C9_pre_cleanup_clobbers_witness :
    ∃ st' c', run_job ["ssm_tool/errors/run_job/update/us-east-1/a1/99.txt"] 100
        ⟨"update", "us-east-1", "a1", some (), false⟩ = some (st', c') ∧
      list_bucket_keys st'
        (JobDesc.errPre ⟨"update", "us-east-1", "a1", some (), false⟩) = [] :=
  claim_C9_pre_cleanup_clobbers.1 ["ssm_tool/errors/run_job/update/us-east-1/a1/99.txt"]
    100 _ rfl (by decide)

/-- C10: `run_job`'s catch-all only covers the remote operation.  For a
job whose `args` field is absent, the `args.get("tags")` access raises an
uncaught `AttributeError` before `clean_up_s3` and before the `try` block
(so nothing is written or deleted — in the embedding `run_job` returns
`none` without producing any store), and the whole batch loop aborts; for
every job whose `args` field is a mapping, `run_job` returns `True`. -/
theorem claim_C10_args_outside_try :
    (∀ (st : S3) (c : Nat) (j : JobDesc), j.args = none → run_job st c j = none) ∧
    (∀ (st : S3) (c : Nat) (j : JobDesc), j.args.isSome →
      ∃ st' c', run_job st c j = some (st', c')) ∧
    run_batch [] 0
      [⟨"update", "us-east-1", "a1", some (), false⟩,
       ⟨"update", "us-east-1", "a2", none, false⟩,
       ⟨"update", "us-east-1", "a3", some (), false⟩] = none := by
  refine ⟨?_, ?_, ?_⟩
  · intro st c j hj
    simp [run_job, hj]
  · intro st c j hj
    obtain ⟨u, hu⟩ := Option.isSome_iff_exists.mp hj
    cases u
    obtain ⟨st', c', hr, _, _⟩ := run_job_some st c j hu
    exact ⟨st', c', hr⟩
  · decide

/-- Witness for C10 at concrete inputs. -/
theorem claim_C10_args_outside_try_witness :
    run_job [] 0 ⟨"update", "us-east-1", "a1", none, false⟩ = none ∧
    ∃ st' c', run_job [] 0 ⟨"update", "us-east-1", "a1", some (), false⟩ = some (st', c') :=
  ⟨claim_C10_args_outside_try.1 [] 0 _ rfl,
   claim_C10_args_outside_try.2.1 [] 0 _ (by decide)⟩

/-- Counterexample to C5 as stated: after the `init` stage *completes*,
the job prefix does NOT list zero keys, because `init` itself (via
`make_jobs`/`chunk_jobs`) writes the new run's batch blobs under
`ssm_tool/jobs/` right after the cleanup.  Concretely, starting from a
store holding one stale batch blob, `init` with one region and one account
leaves exactly one (fresh) key under the job prefix. -/
theorem claim_C5_counterexample :
    ∃ stk, main_init ["ssm_tool/jobs/us-east-1/stale"] "update" [("us-east-1", ["a1"])] =
        some stk ∧
      list_bucket_keys stk.1 "ssm_tool/jobs/" = ["ssm_tool/jobs/us-east-1/batch-0"] :=
  ⟨_, rfl, by decide⟩

/-- C5 (amended: the zero-keys guarantee holds right after `init`'s
cleanup step; after `init` *completes*, the error prefix still lists zero
keys but the job prefix lists exactly the batch keys `make_jobs` just
wrote — all stale keys are gone): for every prior store state, cleaning
`ssm_tool/jobs/` and `ssm_tool/errors/` leaves both listings empty, and a
full `init` (shown for one region with two accounts) ends with an empty
error listing and exactly the fresh batch keys under the job prefix. -/
theorem claim_C5_init_cleanup (st : S3) :
    (list_bucket_keys (clean_up_s3 st ["ssm_tool/jobs/", "ssm_tool/errors/"])
        "ssm_tool/jobs/" = [] ∧
     list_bucket_keys (clean_up_s3 st ["ssm_tool/jobs/", "ssm_tool/errors/"])
        "ssm_tool/errors/" = []) ∧
    (∀ stk, main_init st "update" [("us-east-1", ["a1", "a2"])] = some stk →
      list_bucket_keys stk.1 "ssm_tool/errors/" = [] ∧
      list_bucket_keys stk.1 "ssm_tool/jobs/" =
        ["ssm_tool/jobs/us-east-1/batch-0", "ssm_tool/jobs/us-east-1/batch-1"]) := by
  have h1 : list_bucket_keys (clean_up_s3 st ["ssm_tool/jobs/", "ssm_tool/errors/"])
      "ssm_tool/jobs/" = [] := clean_up_s3_listed_nil _ st _ (by simp)
  have h2 : list_bucket_keys (clean_up_s3 st ["ssm_tool/jobs/", "ssm_tool/errors/"])
      "ssm_tool/errors/" = [] := clean_up_s3_listed_nil _ st _ (by simp)
  refine ⟨⟨h1, h2⟩, ?_⟩
  intro stk hstk
  have hw : chunk_jobs_writes (make_region_jobs "update" "us-east-1" ["a1", "a2"])
      "us-east-1" "ssm_tool/jobs" 100 =
      some ["ssm_tool/jobs/us-east-1/batch-0", "ssm_tool/jobs/us-east-1/batch-1"] := by
    decide
  unfold main_init make_jobs at hstk
  rw [List.foldl_cons, List.foldl_nil, hw] at hstk
  simp only [Option.some.injEq] at hstk
  subst hstk
  set st1 := clean_up_s3 st ["ssm_tool/jobs/", "ssm_tool/errors/"] with hst1
  have hu0 : keyUnder "ssm_tool/jobs/" "ssm_tool/jobs/us-east-1/batch-0" = true := by decide
  have hu1 : keyUnder "ssm_tool/jobs/" "ssm_tool/jobs/us-east-1/batch-1" = true := by decide
  have hm0 : "ssm_tool/jobs/us-east-1/batch-0" ∉ st1 := by
    intro hmem
    have : "ssm_tool/jobs/us-east-1/batch-0" ∈ list_bucket_keys st1 "ssm_tool/jobs/" := by
      simp [list_bucket_keys, List.mem_filter, hmem, hu0]
    rw [h1] at this
    simp at this
  have hm1 : "ssm_tool/jobs/us-east-1/batch-1" ∉
      put_object_ st1 "ssm_tool/jobs/us-east-1/batch-0" := by
    intro hmem
    rw [mem_put_object_] at hmem
    rcases hmem with hmem | hmem
    · have : "ssm_tool/jobs/us-east-1/batch-1" ∈ list_bucket_keys st1 "ssm_tool/jobs/" := by
        simp [list_bucket_keys, List.mem_filter, hmem, hu1]
      rw [h1] at this
      simp at this
    · simp at hmem
  constructor
  · rw [List.foldl_cons, List.foldl_cons, List.foldl_nil,
      list_bucket_keys_put_of_not_under _ _ _ (by decide),
      list_bucket_keys_put_of_not_under _ _ _ (by decide), h2]
  · rw [List.foldl_cons, List.foldl_cons, List.foldl_nil,
      list_bucket_keys_put_of_under _ _ _ hu1 hm1,
      list_bucket_keys_put_of_under _ _ _ hu0 hm0, h1]
    rfl

/-- Witness for C5 (amended) at a concrete prior store holding stale
batch and error blobs. -/
theorem claim_C5_init_cleanup_witness :
    ∃ stk, main_init ["ssm_tool/jobs/us-east-1/stale", "ssm_tool/errors/old.txt"]
        "update" [("us-east-1", ["a1", "a2"])] = some stk ∧
      list_bucket_keys stk.1 "ssm_tool/errors/" = [] ∧
      list_bucket_keys stk.1 "ssm_tool/jobs/" =
        ["ssm_tool/jobs/us-east-1/batch-0", "ssm_tool/jobs/us-east-1/batch-1"] :=
  ⟨_, rfl,
    (claim_C5_init_cleanup
      ["ssm_tool/jobs/us-east-1/stale", "ssm_tool/errors/old.txt"]).2 _ rfl⟩

/-!
SSM parameter tag operations (layers/utilities/aws/ssm_utilities.py).
A parameter's tag set is modelled as an association list of
(Key, Value) pairs.  The two AWS calls the repo wraps 1:1 follow the AWS
API contract: `remove_tags_from_resource(TagKeys=ks)` removes exactly the
tags whose key is in `ks`; `add_tags_to_resource(Tags=ts)` overwrites the
value of an existing tag with the same key and appends the rest.
-/

/-- Tag list as held by a parameter: (Key, Value) pairs. -/
abbrev Tags := List (String × String)

/-- AWS `remove_tags_from_resource`: drop the tags whose key is listed. -/
def remove_tags_from_resource (cur : Tags) (tagKeys : List String) : Tags :=
  cur.filter (fun t => !(tagKeys.contains t.1))

/-- AWS `add_tags_to_resource`: upsert — same-key tags get the new value,
fresh keys are appended. -/
def add_tags_to_resource (cur : Tags) (tags : Tags) : Tags :=
  cur.filter (fun t => !((tags.map (fun item => item.1)).contains t.1)) ++ tags

/-- `SsmUtilities.update_tags_on_parameter`: first
`remove_tags_from_resource` with `TagKeys=[item["Key"] for item in tags]`
— the keys of the NEW tags, not of the parameter's current tags — then
`add_tags_to_resource(Tags=tags)`. -/
def update_tags_on_parameter (cur : Tags) (tags : Tags) : Tags :=
  add_tags_to_resource
    (remove_tags_from_resource cur (tags.map (fun item => item.1))) tags

/-- Counterexample to C6 as stated: `update_tags_on_parameter` does not
remove *all* existing tags — only those whose key occurs among the new
tags.  A parameter tagged `{t_environment: dev, extra: x}` updated to
`{t_environment: DEV}` keeps the leftover `extra: x` tag, so it does not
end up with exactly the new tag set. -/
theorem claim_C6_counterexample :
    update_tags_on_parameter [("t_environment", "dev"), ("extra", "x")]
        [("t_environment", "DEV")] =
      [("extra", "x"), ("t_environment", "DEV")] ∧
    ¬ List.Perm
      (update_tags_on_parameter [("t_environment", "dev"), ("extra", "x")]
        [("t_environment", "DEV")])
      [("t_environment", "DEV")] := by
  constructor
  · decide
  · decide

/-- C6 (amended: the operation removes only the tags whose keys occur in
the new tag set, then adds the new tags, so the parameter ends with the
new tags plus any pre-existing tags whose keys are absent from the new
set; when every current key occurs among the new keys — as in the
concrete `{t_environment: dev}` → `{t_environment: DEV}` scenario — the
result is exactly the new tag set, with no leftover old-value tag). -/
theorem claim_C6_update_tags (cur tags : Tags) :
    update_tags_on_parameter cur tags =
      cur.filter (fun t => !((tags.map (fun item => item.1)).contains t.1)) ++ tags ∧
    ((∀ t ∈ cur, t.1 ∈ tags.map (fun item => item.1)) →
      update_tags_on_parameter cur tags = tags) ∧
    update_tags_on_parameter [("t_environment", "dev")] [("t_environment", "DEV")] =
      [("t_environment", "DEV")] := by
  have hchar : update_tags_on_parameter cur tags =
      cur.filter (fun t => !((tags.map (fun item => item.1)).contains t.1)) ++ tags := by
    unfold update_tags_on_parameter add_tags_to_resource remove_tags_from_resource
    rw [List.filter_filter]
    congr 1
    apply List.filter_congr
    intro t _
    exact Bool.and_self _
  refine ⟨hchar, ?_, by decide⟩
  intro hall
  rw [hchar]
  have hnil : cur.filter (fun t => !((tags.map (fun item => item.1)).contains t.1)) = [] := by
    rw [List.filter_eq_nil_iff]
    intro t ht h
    rw [Bool.not_eq_true'] at h
    have hc : (List.map (fun item => item.1) tags).contains t.1 = true :=
      List.elem_iff.mpr (hall t ht)
    rw [h] at hc
    simp at hc
  rw [hnil, List.nil_append]

/-- Witness for C6 (amended) at the concrete scenario of the claim. -/
theorem claim_C6_update_tags_witness :
    update_tags_on_parameter [("t_environment", "dev")] [("t_environment", "DEV")] =
      [("t_environment", "DEV")] :=
  (claim_C6_update_tags [("t_environment", "dev")] [("t_environment", "DEV")]).2.1
    (by decide)

/-!
`SsmUtilities.delete_parameters_` (layers/utilities/aws/ssm_utilities.py,
lines 206-232): chunk the names 10 per provider call
(`for i in range(0, len(names), limit): chunks.append(names[i:i+limit])`),
issue one `delete_parameters` call per chunk, and extend
`output["deleted"]` / `output["invalid"]` with each response's
`DeletedParameters` / `InvalidParameters` (each guarded by a Python
truthiness check, which skips extending by an empty list — a no-op).
The provider call is abstracted as `resp : List String → List String × List String`
returning (DeletedParameters, InvalidParameters) for a chunk.
-/

/-- The `range(0, len(names), 10)` slicing loop, fuel-indexed so it
reduces on concrete inputs; `names.length` fuel always suffices since
every step drops 10 ≥ 1 names. -/
def chunksOfTenF : Nat → List String → List (List String)
  | _, [] => []
  | 0, _ :: _ => []
  | f + 1, a :: rest => ((a :: rest).take 10) :: chunksOfTenF f ((a :: rest).drop 10)

/-- The chunk list built by `delete_parameters_`. -/
def chunksOfTen (names : List String) : List (List String) :=
  chunksOfTenF names.length names

/-- One iteration of the `for chunk in chunks:` loop body. -/
def deleteStep (resp : List String → List String × List String)
    (output : List String × List String) (chunk : List String) :
    List String × List String :=
  let res := resp chunk
  let out1 := if res.1.isEmpty then output.1 else output.1 ++ res.1
  let out2 := if res.2.isEmpty then output.2 else output.2 ++ res.2
  (out1, out2)

/-- `SsmUtilities.delete_parameters_`: the merged
(`deleted`, `invalid`) output, paired with the number of provider calls
issued (one per chunk). -/
def delete_parameters_ (resp : List String → List String × List String)
    (names : List String) : (List String × List String) × Nat :=
  let chunks := chunksOfTen names
  (chunks.foldl (deleteStep resp) ([], []), chunks.length)

theorem chunksOfTenF_flatten (f : Nat) (l : List String) (h : l.length ≤ f) :
    (chunksOfTenF f l).flatten = l := by
  induction f generalizing l with
  | zero =>
    cases l with
    | nil => rfl
    | cons a rest => simp at h
  | succ m ih =>
    cases l with
    | nil => rfl
    | cons a rest =>
      rw [chunksOfTenF, List.flatten_cons, ih, List.take_append_drop]
      simp only [List.length_drop, List.length_cons] at h ⊢
      omega

theorem chunksOfTenF_le_ten (f : Nat) (l : List String) :
    ∀ c ∈ chunksOfTenF f l, c.length ≤ 10 := by
  induction f generalizing l with
  | zero =>
    cases l with
    | nil => simp [chunksOfTenF]
    | cons a rest => simp [chunksOfTenF]
  | succ m ih =>
    cases l with
    | nil => simp [chunksOfTenF]
    | cons a rest =>
      intro c hc
      rw [chunksOfTenF, List.mem_cons] at hc
      rcases hc with hc | hc
      · rw [hc]
        simp [List.length_take]
      · exact ih _ c hc

theorem deleteStep_eq (resp : List String → List String × List String)
    (out : List String × List String) (c : List String) :
    deleteStep resp out c = (out.1 ++ (resp c).1, out.2 ++ (resp c).2) := by
  simp only [deleteStep]
  split <;> split <;> simp_all [List.isEmpty_iff]

theorem deleteStep_foldl (resp : List String → List String × List String)
    (chunks : List (List String)) (a b : List String) :
    chunks.foldl (deleteStep resp) (a, b) =
      (a ++ (chunks.map (fun c => (resp c).1)).flatten,
       b ++ (chunks.map (fun c => (resp c).2)).flatten) := by
  induction chunks generalizing a b with
  | nil => simp
  | cons c cs ih =>
    rw [List.foldl_cons, deleteStep_eq, ih]
    simp [List.append_assoc]

/-- C7: `delete_parameters_` splits the name list into consecutive chunks
of at most 10, issues one provider call per chunk, and returns the
concatenation of the per-chunk `DeletedParameters` under `deleted` and
the per-chunk `InvalidParameters` under `invalid`; 23 names produce
exactly 3 calls on chunks of sizes 10, 10 and 3. -/
theorem claim_C7_delete_chunking (resp : List String → List String × List String)
    (names : List String) :
    delete_parameters_ resp names =
      ((((chunksOfTen names).map (fun c => (resp c).1)).flatten,
        ((chunksOfTen names).map (fun c => (resp c).2)).flatten),
       (chunksOfTen names).length) ∧
    (chunksOfTen names).flatten = names ∧
    (∀ c ∈ chunksOfTen names, c.length ≤ 10) ∧
    ((chunksOfTen ((List.range 23).map toString)).map List.length = [10, 10, 3] ∧
      (chunksOfTen ((List.range 23).map toString)).flatten = (List.range 23).map toString) := by
  refine ⟨?_, chunksOfTenF_flatten _ _ (Nat.le_refl _), chunksOfTenF_le_ten _ _, ?_, ?_⟩
  · simp only [delete_parameters_]
    rw [deleteStep_foldl]
    simp
  · decide
  · decide

end SsmTool
